import Mathlib

/-!
# Verification of the anthropic-proxy translator and monitor store

Shallow embedding of the OpenRouter handler (`src/routers/openrouter.js`)
and the monitor request store (`src/monitor/store.js`), with theorems
settling the frozen specification claims.

JSON values are modelled by the inductive `JVal`; JavaScript objects are
association lists in insertion order, JavaScript `undefined` fields are
`Option.none`.
-/

set_option maxRecDepth 4000

namespace Proxy

/-- A JSON value as handled by the JavaScript source: `null`, booleans,
numbers, strings, arrays and objects (insertion-ordered key/value lists). -/
inductive JVal where
  | null : JVal
  | bool : Bool → JVal
  | num : Int → JVal
  | str : String → JVal
  | arr : List JVal → JVal
  | obj : List (String × JVal) → JVal
deriving Repr

namespace JVal

/-- JavaScript truthiness on our value model: `null`, `false`, `0` and `""`
are falsy, everything else (including empty arrays and objects) is truthy. -/
def falsy : JVal → Bool
  | .null => true
  | .bool b => !b
  | .num n => n == 0
  | .str s => s == ""
  | .arr _ => false
  | .obj _ => false

/-- `typeof v === 'object'`: true for `null`, arrays and objects. -/
def typeofObject : JVal → Bool
  | .null => true
  | .arr _ => true
  | .obj _ => true
  | _ => false

/-- Property lookup `o[k]` on an object entry list (first binding wins,
`none` models JavaScript `undefined`). -/
def getProp (kvs : List (String × JVal)) (k : String) : Option JVal :=
  (kvs.find? (fun e => e.1 == k)).map (·.2)

end JVal

open JVal

/-- `schema.type === 'string' && schema.format === 'uri'` on an object's
entry list (`removeUriFormat`, src/routers/openrouter.js:532). -/
def isUriStringNode (kvs : List (String × JVal)) : Bool :=
  match getProp kvs "type", getProp kvs "format" with
  | some (.str t), some (.str f) => t == "string" && f == "uri"
  | _, _ => false

mutual

/-- Embedding of `OpenRouterHandler.removeUriFormat`
(src/routers/openrouter.js:528-561): recursively walks a JSON schema; an
object node with `type:"string"` and `format:"uri"` is returned with the
`format` key destructured away (its remaining values are NOT recursed into);
arrays are mapped element-wise; any other object is rebuilt key by key with
special branches for `properties`, `items`, `additionalProperties` and
`anyOf`/`allOf`/`oneOf`.  Non-objects are returned unchanged (the
`!schema || typeof schema !== 'object'` guard). -/
def removeUriFormat : JVal → JVal
  | .obj kvs =>
    if isUriStringNode kvs then
      .obj (kvs.filter (fun e => e.1 ≠ "format"))
    else
      .obj (cleanEntries kvs)
  | .arr xs => .arr (cleanList xs)
  | v => v

/-- The `for (const key in schema)` body of `removeUriFormat`, one entry at
a time. -/
def cleanEntries : List (String × JVal) → List (String × JVal)
  | [] => []
  | (k, v) :: rest => cleanEntry k v :: cleanEntries rest

/-- One key of the rebuild loop of `removeUriFormat`. -/
def cleanEntry (k : String) (v : JVal) : String × JVal :=
  if k = "properties" ∧ typeofObject v then
    (k, forInClean v)
  else if (k = "items" ∨ k = "additionalProperties") ∧ typeofObject v then
    (k, removeUriFormat v)
  else if (k = "anyOf" ∨ k = "allOf" ∨ k = "oneOf") ∧ isArrVal v then
    (k, cleanArr v)
  else
    (k, removeUriFormat v)

/-- `result[key] = {}; for (const propKey in schema[key]) ...` — the
`properties` branch: a `for..in` enumeration of the value always produces a
fresh object (JavaScript `for..in` over `null` iterates zero times and over
an array enumerates its indices as string keys). -/
def forInClean : JVal → JVal
  | .null => .obj []
  | .arr xs => .obj (forInArr 0 xs)
  | .obj kvs => .obj (cleanValues kvs)
  | v => v

/-- `for..in` over an array: index keys as strings, values cleaned. -/
def forInArr : Nat → List JVal → List (String × JVal)
  | _, [] => []
  | i, x :: xs => (toString i, removeUriFormat x) :: forInArr (i + 1) xs

/-- Clean each value of an object entry list, keys untouched. -/
def cleanValues : List (String × JVal) → List (String × JVal)
  | [] => []
  | (k, v) :: rest => (k, removeUriFormat v) :: cleanValues rest

/-- The `anyOf`/`allOf`/`oneOf` branch: `schema[key].map(removeUriFormat)`. -/
def cleanArr : JVal → JVal
  | .arr xs => .arr (cleanList xs)
  | v => v

/-- Element-wise cleaning of an array of schemas. -/
def cleanList : List JVal → List JVal
  | [] => []
  | x :: xs => removeUriFormat x :: cleanList xs

/-- `Array.isArray`. -/
def isArrVal : JVal → Bool
  | .arr _ => true
  | _ => false

end

/-! ## Normal forms of the schema cleaner

`isCleanedJ` characterises schemas on which `removeUriFormat` is the
identity; `tameJ` restricts string-uri nodes to primitive payloads (the
cleaner does not recurse into the siblings of a removed `format` key, so a
container hiding there escapes the first pass). -/

/-- Primitive JSON values: booleans, numbers and strings. -/
def isPrim : JVal → Bool
  | .bool _ => true
  | .num _ => true
  | .str _ => true
  | _ => false

mutual

/-- `removeUriFormat` normal form: no string-uri node occurs in a position
the cleaner inspects (the direct value of a `properties` key is never
inspected itself, only its values are). -/
def isCleanedJ : JVal → Bool
  | .arr xs => isCleanedL xs
  | .obj kvs => !isUriStringNode kvs && isCleanedO kvs
  | _ => true

def isCleanedL : List JVal → Bool
  | [] => true
  | x :: xs => isCleanedJ x && isCleanedL xs

def isCleanedO : List (String × JVal) → Bool
  | [] => true
  | (k, v) :: rest => isCleanedEntry k v && isCleanedO rest

/-- Normal form of one object entry: a `properties` key holds an object of
normal-form values; any other entry holds a normal-form value. -/
def isCleanedEntry (k : String) (v : JVal) : Bool :=
  if k = "properties" ∧ typeofObject v then
    match v with
    | .obj kvs => isCleanedVals kvs
    | _ => false
  else isCleanedJ v

def isCleanedVals : List (String × JVal) → Bool
  | [] => true
  | (_, v) :: rest => isCleanedJ v && isCleanedVals rest

end

mutual

/-- Tameness: every string-uri node carries only primitive values under its
other keys.  Sufficient for `removeUriFormat` to be idempotent. -/
def tameJ : JVal → Bool
  | .arr xs => tameL xs
  | .obj kvs => if isUriStringNode kvs then primVals kvs else tameO kvs
  | _ => true

def tameL : List JVal → Bool
  | [] => true
  | x :: xs => tameJ x && tameL xs

def tameO : List (String × JVal) → Bool
  | [] => true
  | (k, v) :: rest => tameEntry k v && tameO rest

def tameEntry (k : String) (v : JVal) : Bool :=
  if k = "properties" ∧ typeofObject v then
    match v with
    | .null => true
    | .arr xs => tameL xs
    | .obj kvs => tameVals kvs
    | _ => false
  else tameJ v

def tameVals : List (String × JVal) → Bool
  | [] => true
  | (_, v) :: rest => tameJ v && tameVals rest

def primVals : List (String × JVal) → Bool
  | [] => true
  | (_, v) :: rest => isPrim v && primVals rest

end

/-! ## Streaming translator (`handleStreamingRequest`, src/routers/openrouter.js:110-406)

The SSE reading loop is modelled at the granularity of one `data:` line:
`ORFrame.done` is the `[DONE]` sentinel, `ORFrame.data` a successfully
parsed JSON frame, `ORFrame.malformed` a `data:` line whose JSON fails to
parse (skipped with a debug log).  Emitted Anthropic SSE events are the
`AEvent` list; HTTP-level replies (the 500 sent when an error frame arrives
before the preamble) are not SSE events and do not appear in it. -/

/-- `usage` object of a foreign frame. -/
structure UsageJson where
  completion_tokens : Option Nat
  prompt_tokens : Option Nat
deriving Repr, DecidableEq

/-- One entry of `delta.tool_calls`; `id`, `function.name` and
`function.arguments` may each be absent. -/
structure ToolCallDelta where
  index : Nat
  id : Option String
  name : Option String
  arguments : Option String
deriving Repr, DecidableEq

/-- `choices[0].delta` of a foreign frame. -/
structure DeltaJson where
  content : Option String
  tool_calls : Option (List ToolCallDelta)
  reasoning : Option String
deriving Repr, DecidableEq

/-- One element of `choices`. -/
structure ChoiceJson where
  delta : Option DeltaJson
  finish_reason : Option String
deriving Repr, DecidableEq

/-- A parsed foreign data frame. -/
structure ChunkJson where
  error : Option String
  usage : Option UsageJson
  choices : List ChoiceJson
deriving Repr, DecidableEq

/-- One `data:` line of the foreign stream. -/
inductive ORFrame where
  | done
  | data (c : ChunkJson)
  | malformed
deriving Repr, DecidableEq

/-- Anthropic SSE events emitted by the translator, restricted to the
fields the source actually writes. -/
inductive AEvent where
  | message_start
  | ping
  | content_block_start_text (index : Nat)
  | content_block_start_tool (index : Nat) (id : Option String) (name : Option String)
  | content_block_delta_text (index : Nat) (text : String)
  | content_block_delta_thinking (index : Nat) (thinking : String)
  | content_block_delta_json (index : Nat) (partial_json : String)
  | content_block_stop (index : Nat)
  | message_delta (stop_reason : String) (output_tokens : Option Nat)
  | error_event (message : String)
  | message_stop
deriving Repr, DecidableEq

/-- Mutable state of the streaming loop (lines 157-196 of the handler).
`terminated` models `res.end()`/`return`/a thrown error: once set, no
further line is processed. -/
structure TState where
  isSucceeded : Bool
  accumulatedContent : String
  accumulatedReasoning : String
  usage : Option UsageJson
  textBlockStarted : Bool
  encounteredToolCall : Bool
  toolCallAccumulators : List (Nat × String)
  terminated : Bool
deriving Repr, DecidableEq

def initialTState : TState :=
  { isSucceeded := false
    accumulatedContent := ""
    accumulatedReasoning := ""
    usage := none
    textBlockStarted := false
    encounteredToolCall := false
    toolCallAccumulators := []
    terminated := false }

/-- `toolCallAccumulators[idx]` (JavaScript object keyed by integers). -/
def accGet (acc : List (Nat × String)) (i : Nat) : Option String :=
  (acc.find? (fun e => e.1 == i)).map (·.2)

/-- Assignment `toolCallAccumulators[idx] = v`. -/
def accSet (acc : List (Nat × String)) (i : Nat) (v : String) : List (Nat × String) :=
  if (acc.find? (fun e => e.1 == i)).isSome then
    acc.map (fun e => if e.1 = i then (i, v) else e)
  else
    acc ++ [(i, v)]

/-- Ascending insertion without duplicates. -/
def insertAsc (i : Nat) : List Nat → List Nat
  | [] => [i]
  | j :: js => if i < j then i :: j :: js else if i = j then j :: js else j :: insertAsc i js

/-- `for (const idx in toolCallAccumulators)`: JavaScript enumerates
integer-like keys in ascending numeric order. -/
def ascKeys (acc : List (Nat × String)) : List Nat :=
  acc.foldl (fun ks e => insertAsc e.1 ks) []

/-- Body of `for (const toolCall of delta.tool_calls)` (lines 320-350). -/
def processToolCall (s : TState) (tc : ToolCallDelta) : TState × List AEvent :=
  let s := { s with encounteredToolCall := true }
  let idx := tc.index
  let (s, startEvents) :=
    match accGet s.toolCallAccumulators idx with
    | none =>
      ({ s with toolCallAccumulators := accSet s.toolCallAccumulators idx "" },
       [AEvent.content_block_start_tool idx tc.id tc.name])
    | some _ => (s, [])
  let newArgs := tc.arguments.getD ""
  let oldArgs := (accGet s.toolCallAccumulators idx).getD ""
  if oldArgs.length < newArgs.length then
    ({ s with toolCallAccumulators := accSet s.toolCallAccumulators idx newArgs },
     startEvents ++ [AEvent.content_block_delta_json idx (newArgs.drop oldArgs.length)])
  else
    (s, startEvents)

def processToolCalls (s : TState) : List ToolCallDelta → TState × List AEvent
  | [] => (s, [])
  | tc :: tcs =>
    let r := processToolCall s tc
    let r' := processToolCalls r.1 tcs
    (r'.1, r.2 ++ r'.2)

/-- JavaScript truthiness of an optional string (`delta.content`,
`delta.reasoning`). -/
def truthyStr : Option String → Bool
  | some s => s ≠ ""
  | none => false

/-- Processing of one parsed data frame (lines 289-393): error handling,
`sendSuccessMessage`, usage capture, then the delta branches.  An empty
`choices` array makes `parsed.choices[0].delta` throw, which aborts the
stream (the surrounding `try` ends the response). -/
def processChunk (s : TState) (c : ChunkJson) : TState × List AEvent :=
  match c.error with
  | some msg =>
    if s.isSucceeded then
      ({ s with terminated := true }, [AEvent.error_event msg])
    else
      ({ s with terminated := true }, [])
  | none =>
    let (s, pre) :=
      if s.isSucceeded then (s, [])
      else ({ s with isSucceeded := true }, [AEvent.message_start, AEvent.ping])
    let s := match c.usage with
      | some u => { s with usage := some u }
      | none => s
    match c.choices with
    | [] => ({ s with terminated := true }, pre)
    | ch :: _ =>
      match ch.delta with
      | none => (s, pre)
      | some d =>
        if d.tool_calls.isSome then
          let (s', evs) := processToolCalls s (d.tool_calls.getD [])
          (s', pre ++ evs)
        else if truthyStr d.content then
          let content := d.content.getD ""
          let (s', startEvents) :=
            if s.textBlockStarted then (s, [])
            else ({ s with textBlockStarted := true }, [AEvent.content_block_start_text 0])
          ({ s' with accumulatedContent := s'.accumulatedContent ++ content },
           pre ++ startEvents ++ [AEvent.content_block_delta_text 0 content])
        else if truthyStr d.reasoning then
          let reasoning := d.reasoning.getD ""
          let (s', startEvents) :=
            if s.textBlockStarted then (s, [])
            else ({ s with textBlockStarted := true }, [AEvent.content_block_start_text 0])
          ({ s' with accumulatedReasoning := s'.accumulatedReasoning ++ reasoning },
           pre ++ startEvents ++ [AEvent.content_block_delta_thinking 0 reasoning])
        else (s, pre)

/-- `str.split(' ').length`: splitting on every single space yields one
part per space plus one. -/
def jsSplitLen (str : String) : Nat :=
  str.toList.count ' ' + 1

/-- The `[DONE]` finalisation (lines 213-278): stop events for tool blocks
(or the text block when no tool call was seen), then `message_delta` with
`stop_reason = encounteredToolCall ? 'tool_use' : 'end_turn'` and the
usage-or-whitespace-count output tokens, then `message_stop`. -/
def doneEvents (s : TState) : List AEvent :=
  (if s.encounteredToolCall then
    (ascKeys s.toolCallAccumulators).map (fun i => AEvent.content_block_stop i)
  else if s.textBlockStarted then [AEvent.content_block_stop 0]
  else [])
  ++ [AEvent.message_delta (if s.encounteredToolCall then "tool_use" else "end_turn")
        (match s.usage with
         | some u => u.completion_tokens
         | none => some (jsSplitLen s.accumulatedContent +
                         jsSplitLen s.accumulatedReasoning)),
      AEvent.message_stop]

/-- One `data:` line of the main loop. -/
def processFrame (s : TState) (f : ORFrame) : TState × List AEvent :=
  if s.terminated then (s, [])
  else
    match f with
    | .malformed => (s, [])
    | .done => ({ s with terminated := true }, doneEvents s)
    | .data c => processChunk s c

/-- Run the streaming loop over a line sequence from a given state. -/
def runFrames (s : TState) : List ORFrame → TState × List AEvent
  | [] => (s, [])
  | f :: fs =>
    let r := processFrame s f
    let r' := runFrames r.1 fs
    (r'.1, r.2 ++ r'.2)

/-- The full translation of a foreign stream into Anthropic SSE events. -/
def runStream (fs : List ORFrame) : List AEvent :=
  (runFrames initialTState fs).2

/-- Final translator state of a stream. -/
def finalState (fs : List ORFrame) : TState :=
  (runFrames initialTState fs).1

/-- The `stop_reason` values carried by emitted `message_delta` events. -/
def stopReasonsOf (evts : List AEvent) : List String :=
  evts.filterMap (fun e => match e with
    | .message_delta r _ => some r
    | _ => none)

/-- The indices of emitted `content_block_stop` events. -/
def blockStopsOf (evts : List AEvent) : List Nat :=
  evts.filterMap (fun e => match e with
    | .content_block_stop i => some i
    | _ => none)

/-- The indices of emitted `content_block_start` events (text and tool). -/
def blockStartsOf (evts : List AEvent) : List Nat :=
  evts.filterMap (fun e => match e with
    | .content_block_start_text i => some i
    | .content_block_start_tool i _ _ => some i
    | _ => none)

/-- Erase every `finish_reason` of a frame (used to state that the
translator never reads it). -/
def eraseFinish : ORFrame → ORFrame
  | .data c => .data { c with choices := c.choices.map (fun ch => { ch with finish_reason := none }) }
  | f => f

/-! ### Concrete foreign streams used by the claims -/

/-- Scenario S1 of the specification: two text deltas (the second carrying
usage), a finish frame, then `[DONE]`. -/
def s1Frames : List ORFrame :=
  [ .data { error := none, usage := none,
            choices := [{ delta := some { content := some "Hi", tool_calls := none,
                                          reasoning := none },
                          finish_reason := none }] },
    .data { error := none,
            usage := some { completion_tokens := some 2, prompt_tokens := none },
            choices := [{ delta := some { content := some " world", tool_calls := none,
                                          reasoning := none },
                          finish_reason := none }] },
    .data { error := none, usage := none,
            choices := [{ delta := none, finish_reason := some "stop" }] },
    .done ]

/-- A stream with no tool calls whose last (and only) `finish_reason` is
`"length"`. -/
def lengthFrames : List ORFrame :=
  [ .data { error := none, usage := none,
            choices := [{ delta := some { content := some "Hi", tool_calls := none,
                                          reasoning := none },
                          finish_reason := none }] },
    .data { error := none, usage := none,
            choices := [{ delta := none, finish_reason := some "length" }] },
    .done ]

/-- Scenario S3 of the specification: a text delta opens block 0, a tool
call opens block 1, then `[DONE]`. -/
def mixedFrames : List ORFrame :=
  [ .data { error := none, usage := none,
            choices := [{ delta := some { content := some "A", tool_calls := none,
                                          reasoning := none },
                          finish_reason := none }] },
    .data { error := none, usage := none,
            choices := [{ delta := some { content := none,
                                          tool_calls := some [{ index := 1, id := some "c1",
                                                                name := some "lookup",
                                                                arguments := some "\x7b\x7d" }],
                                          reasoning := none },
                          finish_reason := some "tool_calls" }] },
    .done ]

/-- A well-formed data frame carrying only metadata (`usage`), no content. -/
def usageOnlyChunk : ChunkJson :=
  { error := none
    usage := some { completion_tokens := some 5, prompt_tokens := none }
    choices := [{ delta := none, finish_reason := none }] }

def usageOnlyFrames : List ORFrame := [.data usageOnlyChunk]

/-! ## Monitor store (`src/monitor/store.js`)

Records are kept in an insertion-ordered association list mirroring the
JavaScript `Map`; `Date.now()` readings are supplied as explicit `now`
arguments and the randomly generated record id as an explicit `id`
argument.  `calculateSize` (a `Blob` byte count of the JSON serialisation)
is abstracted by an arbitrary size function `sz : JVal → Nat` which every
theorem quantifies over. -/

mutual

/-- Embedding of `maskSensitiveData` (src/monitor/store.js:9-29): falsy
values and non-strings pass through, arrays are masked element-wise, long
strings are truncated. -/
def maskSensitiveData : JVal → JVal
  | .arr xs => .arr (maskListSD xs)
  | .str s =>
    if s = "" then .str s
    else if s.length > 20 then .str (s.take 10 ++ "..." ++ s.takeRight 4)
    else if s.length > 10 then .str (s.take 6 ++ "...")
    else .str s
  | v => v

def maskListSD : List JVal → List JVal
  | [] => []
  | x :: xs => maskSensitiveData x :: maskListSD xs

end

/-- Record status: `pending`, `success` or `error`. -/
inductive RStatus where
  | pending
  | success
  | error
deriving Repr, DecidableEq

/-- `record.metrics`. -/
structure Metrics where
  duration : Option Int
  inputTokens : Int
  outputTokens : Int
  firstChunkTime : Option Int
  chunksCount : Nat
  requestSize : Nat
  responseSize : Nat
  totalSize : Nat
deriving Repr

/-- The response snapshot passed to `endRequest`. -/
structure RespSnapshot where
  status : Int
  headers : Option JVal
  body : Option JVal
deriving Repr

/-- The request snapshot passed to `startRequest`. -/
structure ReqSnapshot where
  method : String
  url : String
  headers : List (String × JVal)
  body : Option JVal
deriving Repr

/-- One record of the store. -/
structure RRecord where
  timestamp : Nat
  startTime : Nat
  method : String
  url : String
  requestHeaders : List (String × JVal)
  requestBody : Option JVal
  response : Option RespSnapshot
  streamChunks : List (Nat × JVal)
  mergedContent : Option JVal
  metrics : Metrics
  status : RStatus
  error : Option (String × String)
deriving Repr

/-- Aggregate statistics. -/
structure Stats where
  totalRequests : Nat
  successCount : Nat
  errorCount : Nat
  totalDuration : Int
  totalInputTokens : Int
  totalOutputTokens : Int
deriving Repr, DecidableEq

/-- The store: bounded record map plus statistics. -/
structure StoreState where
  requests : List (String × RRecord)
  maxSize : Nat
  stats : Stats
deriving Repr

/-- Events the store emits to subscribers. -/
inductive StoreEvent where
  | requestStart (id : String)
  | requestEnd (id : String)
  | streamChunk (id : String)
  | requestError (id : String)
deriving Repr, DecidableEq

/-- A fresh store of the given capacity. -/
def emptyStore (maxSize : Nat) : StoreState :=
  { requests := []
    maxSize := maxSize
    stats := { totalRequests := 0, successCount := 0, errorCount := 0,
               totalDuration := 0, totalInputTokens := 0, totalOutputTokens := 0 } }

/-- `this.requests.get(id)`. -/
def mapGet (m : List (String × RRecord)) (id : String) : Option RRecord :=
  (m.find? (fun e => e.1 == id)).map (·.2)

/-- `this.requests.set(id, r)`: replace an existing binding in place or
append a new one (JavaScript `Map` insertion order). -/
def mapSet (m : List (String × RRecord)) (id : String) (r : RRecord) :
    List (String × RRecord) :=
  if (m.find? (fun e => e.1 == id)).isSome then
    m.map (fun e => if e.1 = id then (id, r) else e)
  else
    m ++ [(id, r)]

/-- `this.requests.delete(id)`. -/
def mapDelete (m : List (String × RRecord)) (id : String) : List (String × RRecord) :=
  m.filter (fun e => e.1 ≠ id)

/-- `calculateSize` (src/monitor/store.js:53-56) relative to an abstract
serialised-byte-count `sz`: falsy/absent objects have size 0. -/
def calculateSize (sz : JVal → Nat) : Option JVal → Nat
  | none => 0
  | some v => sz v

/-- The eviction comparator (src/monitor/store.js:63-70): pending records
sort last, otherwise oldest timestamp first. -/
def evictLE (a b : RRecord) : Bool :=
  if a.status = .pending ∧ b.status ≠ .pending then false
  else if b.status = .pending ∧ a.status ≠ .pending then true
  else a.timestamp ≤ b.timestamp

/-- `evictOldestRequests` (src/monitor/store.js:59-86): snapshot and sort
the entries, delete the first `max(1, ⌊maxSize/10⌋)` of them, and if the
map is still at capacity delete the first pending entry of the snapshot. -/
def evictOldestRequests (st : StoreState) : List (String × RRecord) :=
  let sorted := st.requests.mergeSort (fun a b => evictLE a.2 b.2)
  let removeCount := max 1 (st.maxSize / 10)
  let m1 := (sorted.take removeCount).foldl (fun m e => mapDelete m e.1) st.requests
  if m1.length ≥ st.maxSize then
    match sorted.find? (fun e => e.2.status == RStatus.pending) with
    | some e => mapDelete m1 e.1
    | none => m1
  else m1

/-- `startRequest` (src/monitor/store.js:89-144): mask sensitive headers,
build a pending record, evict when at capacity, insert, bump
`totalRequests`, emit `requestStart`. -/
def startRequest (sz : JVal → Nat) (st : StoreState) (now : Nat) (id : String)
    (req : ReqSnapshot) : StoreState × List StoreEvent :=
  let maskedHeaders := req.headers.map (fun e =>
    if e.1.toLower = "x-api-key" ∨ e.1.toLower = "authorization" then
      (e.1, maskSensitiveData e.2)
    else e)
  let requestSize := calculateSize sz req.body + calculateSize sz (some (.obj maskedHeaders))
  let record : RRecord :=
    { timestamp := now
      startTime := now
      method := req.method
      url := req.url
      requestHeaders := maskedHeaders
      requestBody := req.body
      response := none
      streamChunks := []
      mergedContent := none
      metrics := { duration := none, inputTokens := 0, outputTokens := 0,
                   firstChunkTime := none, chunksCount := 0,
                   requestSize := requestSize, responseSize := 0,
                   totalSize := requestSize }
      status := .pending
      error := none }
  let m := if st.requests.length ≥ st.maxSize then evictOldestRequests st else st.requests
  ({ st with requests := mapSet m id record
             stats := { st.stats with totalRequests := st.stats.totalRequests + 1 } },
   [StoreEvent.requestStart id])

/-- `responseData.body?.usage` / `mergedContent.usage`: the `usage`
property of an optional JSON value, when truthy. -/
def usageProp (b : Option JVal) : Option JVal :=
  match b with
  | some (.obj kvs) =>
    match getProp kvs "usage" with
    | some u => if falsy u then none else some u
    | none => none
  | _ => none

/-- `usage.input_tokens || 0` style token extraction. -/
def tokenVal (u : JVal) (k : String) : Int :=
  match u with
  | .obj kvs =>
    match getProp kvs k with
    | some (.num n) => n
    | _ => 0
  | _ => 0

/-- `endRequest` (src/monitor/store.js:147-185): no-op on an unknown id;
otherwise attach the response, compute duration/sizes/status, update the
aggregate statistics and token counts, emit `requestEnd`. -/
def endRequest (sz : JVal → Nat) (st : StoreState) (now : Nat) (id : String)
    (resp : RespSnapshot) : StoreState × List StoreEvent :=
  match mapGet st.requests id with
  | none => (st, [])
  | some request =>
    let duration : Int := (now : Int) - (request.startTime : Int)
    let responseSize := calculateSize sz resp.body + calculateSize sz resp.headers
    let newStatus := if 200 ≤ resp.status ∧ resp.status < 300 then RStatus.success
                     else RStatus.error
    let tokens := usageProp resp.body
    let inputTokens := match tokens with
      | some u => tokenVal u "input_tokens"
      | none => request.metrics.inputTokens
    let outputTokens := match tokens with
      | some u => tokenVal u "output_tokens"
      | none => request.metrics.outputTokens
    let request' := { request with
      response := some resp
      status := newStatus
      metrics := { request.metrics with
        duration := some duration
        responseSize := responseSize
        totalSize := request.metrics.requestSize + responseSize
        inputTokens := inputTokens
        outputTokens := outputTokens } }
    let stats := { st.stats with
      totalDuration := st.stats.totalDuration + duration
      successCount := st.stats.successCount + (if newStatus = .success then 1 else 0)
      errorCount := st.stats.errorCount + (if newStatus = .success then 0 else 1)
      totalInputTokens := st.stats.totalInputTokens +
        (match tokens with | some u => tokenVal u "input_tokens" | none => 0)
      totalOutputTokens := st.stats.totalOutputTokens +
        (match tokens with | some u => tokenVal u "output_tokens" | none => 0) }
    ({ st with requests := mapSet st.requests id request', stats := stats },
     [StoreEvent.requestEnd id])

/-- `addStreamChunk` (src/monitor/store.js:188-205): no-op on an unknown
id; otherwise record the first-chunk latency, append the chunk, bump
`chunksCount`, emit `streamChunk`. -/
def addStreamChunk (st : StoreState) (now : Nat) (id : String) (chunk : JVal) :
    StoreState × List StoreEvent :=
  match mapGet st.requests id with
  | none => (st, [])
  | some request =>
    let firstChunkTime :=
      if request.streamChunks.length = 0 ∧ request.startTime ≠ 0 then
        some ((now : Int) - (request.startTime : Int))
      else request.metrics.firstChunkTime
    let request' := { request with
      streamChunks := request.streamChunks ++ [(now, chunk)]
      metrics := { request.metrics with
        firstChunkTime := firstChunkTime
        chunksCount := request.metrics.chunksCount + 1 } }
    ({ st with requests := mapSet st.requests id request' }, [StoreEvent.streamChunk id])

/-- `setMergedContent` (src/monitor/store.js:208-227): no-op on an unknown
id; otherwise attach the merged content, recompute the streaming response
size, attribute tokens.  Emits no event. -/
def setMergedContent (sz : JVal → Nat) (st : StoreState) (id : String) (merged : JVal) :
    StoreState × List StoreEvent :=
  match mapGet st.requests id with
  | none => (st, [])
  | some request =>
    let streamSize := calculateSize sz (some merged) +
      request.streamChunks.foldl (fun total c => total + calculateSize sz (some c.2)) 0
    let tokens := usageProp (some merged)
    let inputTokens := match tokens with
      | some u => tokenVal u "input_tokens"
      | none => request.metrics.inputTokens
    let outputTokens := match tokens with
      | some u => tokenVal u "output_tokens"
      | none => request.metrics.outputTokens
    let request' := { request with
      mergedContent := some merged
      metrics := { request.metrics with
        responseSize := streamSize
        totalSize := request.metrics.requestSize + streamSize
        inputTokens := inputTokens
        outputTokens := outputTokens } }
    let stats := { st.stats with
      totalInputTokens := st.stats.totalInputTokens +
        (match tokens with | some u => tokenVal u "input_tokens" | none => 0)
      totalOutputTokens := st.stats.totalOutputTokens +
        (match tokens with | some u => tokenVal u "output_tokens" | none => 0) }
    ({ st with requests := mapSet st.requests id request', stats := stats }, [])

/-- `setError` (src/monitor/store.js:230-242): no-op on an unknown id;
otherwise mark the record as an error, attach message and stack, bump the
error count, emit `requestError`. -/
def setError (st : StoreState) (id : String) (message stack : String) :
    StoreState × List StoreEvent :=
  match mapGet st.requests id with
  | none => (st, [])
  | some request =>
    let request' := { request with
      status := .error
      error := some (message, stack) }
    ({ st with requests := mapSet st.requests id request'
               stats := { st.stats with errorCount := st.stats.errorCount + 1 } },
     [StoreEvent.requestError id])

/-- One store operation, with its environment inputs (clock reading,
generated id, payloads). -/
inductive StoreOp where
  | start (id : String) (now : Nat) (req : ReqSnapshot)
  | endReq (id : String) (now : Nat) (resp : RespSnapshot)
  | addChunk (id : String) (now : Nat) (chunk : JVal)
  | setMerged (id : String) (merged : JVal)
  | setErr (id : String) (message stack : String)

/-- Apply one operation. -/
def applyOp (sz : JVal → Nat) (st : StoreState) : StoreOp → StoreState × List StoreEvent
  | .start id now req => startRequest sz st now id req
  | .endReq id now resp => endRequest sz st now id resp
  | .addChunk id now chunk => addStreamChunk st now id chunk
  | .setMerged id merged => setMergedContent sz st id merged
  | .setErr id message stack => setError st id message stack

/-- Run a sequence of operations from the empty store of capacity `n`. -/
def runOps (sz : JVal → Nat) (n : Nat) (ops : List StoreOp) : StoreState :=
  ops.foldl (fun st op => (applyOp sz st op).1) (emptyStore n)

/-! ## Request translator (`convertRequestInline`, src/routers/openrouter.js:424-499)

Anthropic message content blocks are the tagged sum `CBlock`; JavaScript's
duck-typed `item.text` access is the `blockText` projection (absent on
`tool_use` blocks).  Numeric parameters are rationals.  Output fields the
source never writes (`top_p`, `stop`) are modelled as `Option` fields that
remain `none`. -/

/-- A content block of an Anthropic message. -/
inductive CBlock where
  | text (text : Option String)
  | tool_use (id : String) (name : String) (input : JVal)
  | tool_result (tool_use_id : Option String) (text : Option String) (content : Option String)
deriving Repr

/-- `item.text` for the content-joining walk of `normalizeContent`. -/
def blockText : CBlock → Option String
  | .text t => t
  | .tool_use _ _ _ => none
  | .tool_result _ t _ => t

/-- `msg.content`: a string or an array of blocks. -/
inductive MsgContent where
  | str (s : String)
  | blocks (bs : List CBlock)
deriving Repr

/-- An inbound Anthropic message. -/
structure NMsg where
  role : String
  content : Option MsgContent
deriving Repr

/-- A system block (`payload.system` array element): the source reads
`sysMsg.text || sysMsg.content` and feeds it to `normalizeContent`. -/
structure SysBlock where
  text : Option MsgContent
  content : Option MsgContent
deriving Repr

/-- `payload.system`: a string or an array of blocks. -/
inductive SystemField where
  | str (s : String)
  | arr (blocks : List SysBlock)
deriving Repr

/-- An inbound Anthropic tool declaration. -/
structure NTool where
  name : String
  description : Option String
  input_schema : JVal
deriving Repr

/-- The inbound Anthropic request, restricted to the fields the translator
reads. -/
structure NativePayload where
  model : Option String
  system : Option SystemField
  messages : List NMsg
  tools : List NTool
  max_tokens : Option ℚ
  temperature : Option ℚ
  top_p : Option ℚ
  stop_sequences : Option (List String)
  stream : Option Bool
deriving Repr

/-- An outbound OpenAI tool call.  `arguments` keeps the structured input
(`JSON.stringify` is abstracted away). -/
structure OToolCall where
  id : String
  name : String
  arguments : JVal
deriving Repr

/-- An outbound OpenAI chat message.  `tool_calls = []` models an absent
`tool_calls` key. -/
structure OMsg where
  role : String
  content : Option String
  tool_calls : List OToolCall
  tool_call_id : Option String
deriving Repr

/-- An outbound OpenAI tool declaration. -/
structure OTool where
  name : String
  description : Option String
  parameters : JVal
deriving Repr

/-- The outbound OpenAI request.  `top_p` and `stop` exist in the wire
format but `convertRequestInline` never assigns them. -/
structure OpenAIPayload where
  model : String
  messages : List OMsg
  max_tokens : Option ℚ
  temperature : ℚ
  top_p : Option ℚ
  stop : Option (List String)
  stream : Bool
  tools : List OTool
deriving Repr

/-- Model-mapping configuration of the converter
(src/converters/openrouter.js). -/
structure ConvConfig where
  defaultModel : String
  sonnetModel : String
  opusModel : String
  haikuModel : String
deriving Repr

/-- `a.includes(b)` on strings, via the split trick: `b` occurs in `a`
iff splitting on `b` yields more than one part. -/
def strIncludes (a b : String) : Bool :=
  (a.splitOn b).length > 1

/-- `OpenRouterConverter.mapModel`: family-keyword substitution with a
default for an absent model. -/
def mapModel (cfg : ConvConfig) (model : Option String) : String :=
  match model with
  | none => cfg.defaultModel
  | some name =>
    if name = "" then cfg.defaultModel
    else
      let lower := name.toLower
      if strIncludes lower "sonnet" then cfg.sonnetModel
      else if strIncludes lower "opus" then cfg.opusModel
      else if strIncludes lower "haiku" then cfg.haikuModel
      else name

/-- `normalizeContent` (src/routers/openrouter.js:426-432): strings pass
through, arrays join the `text` fields with single spaces (JavaScript
`join` renders an absent `text` as the empty string), anything else is
`null`. -/
def normalizeContent : Option MsgContent → Option String
  | some (.str s) => some s
  | some (.blocks bs) => some (String.intercalate " " (bs.map (fun b => (blockText b).getD "")))
  | none => none

/-- JavaScript `a || b` on optional strings. -/
def jsOrStr (a b : Option String) : Option String :=
  match a with
  | some s => if s = "" then b else some s
  | none => b

/-- `sysMsg.text || sysMsg.content` (truthiness on our content model:
empty strings are falsy, arrays are truthy). -/
def sysPick (b : SysBlock) : Option MsgContent :=
  match b.text with
  | some (.str s) => if s = "" then b.content else some (.str s)
  | some c => some c
  | none => b.content

/-- The system-prompt loop (src/routers/openrouter.js:436-446): only an
array-valued `system` contributes, one message per block whose normalized
`text || content` is truthy. -/
def systemMessagesOf : Option SystemField → List OMsg
  | some (.arr blocks) => blocks.filterMap (fun b =>
      match normalizeContent (sysPick b) with
      | some s =>
        if s = "" then none
        else some { role := "system", content := some s, tool_calls := [], tool_call_id := none }
      | none => none)
  | _ => []

/-- The per-message conversion loop (src/routers/openrouter.js:449-476):
extract tool calls, normalize text, emit the main message when it has
content or tool calls, then one `tool` message per tool result. -/
def convertMessages (msgs : List NMsg) : List OMsg :=
  msgs.flatMap (fun m =>
    let bs := match m.content with
      | some (.blocks bs) => bs
      | _ => []
    let toolCalls := bs.filterMap (fun b => match b with
      | .tool_use id name input => some ({ id := id, name := name, arguments := input } : OToolCall)
      | _ => none)
    let normalized := normalizeContent m.content
    let content := normalized.bind (fun s => if s = "" then none else some s)
    let main : List OMsg :=
      if content.isSome || !toolCalls.isEmpty then
        [{ role := m.role, content := content, tool_calls := toolCalls, tool_call_id := none }]
      else []
    let results : List OMsg := bs.filterMap (fun b => match b with
      | .tool_result tid t c =>
        some { role := "tool", content := jsOrStr t c, tool_calls := [], tool_call_id := tid }
      | _ => none)
    main ++ results)

/-- The tool-declaration conversion (src/routers/openrouter.js:479-488):
drop `BatchTool`, clean each schema. -/
def convertTools (tools : List NTool) : List OTool :=
  (tools.filter (fun t => t.name ≠ "BatchTool")).map (fun t =>
    { name := t.name, description := t.description,
      parameters := removeUriFormat t.input_schema })

/-- Embedding of `convertRequestInline` (src/routers/openrouter.js:424-499). -/
def convertRequestInline (cfg : ConvConfig) (p : NativePayload) : OpenAIPayload :=
  { model := mapModel cfg p.model
    messages := systemMessagesOf p.system ++ convertMessages p.messages
    max_tokens := p.max_tokens
    temperature := p.temperature.getD 1
    top_p := none
    stop := none
    stream := p.stream = some true
    tools := convertTools p.tools }

/-! ### Concrete inputs for the translator claims -/

/-- A payload whose `system` is the single string `"Be helpful"` and whose
other fields are empty. -/
def stringSystemPayload : NativePayload :=
  { model := some "claude-3-5-sonnet-20241022"
    system := some (.str "Be helpful")
    messages := []
    tools := []
    max_tokens := some 100
    temperature := none
    top_p := none
    stop_sequences := none
    stream := some false }

/-- A payload carrying `top_p` and `stop_sequences`. -/
def scalarPayload : NativePayload :=
  { model := some "claude-3-5-sonnet-20241022"
    system := none
    messages := [{ role := "user", content := some (.str "hi") }]
    tools := []
    max_tokens := some 42
    temperature := some (7 / 10)
    top_p := some (9 / 10)
    stop_sequences := some ["STOP"]
    stream := some true }

/-- A fixed converter configuration for the concrete examples. -/
def exampleConfig : ConvConfig :=
  { defaultModel := "anthropic/claude-3.5-sonnet"
    sonnetModel := "anthropic/claude-3.5-sonnet"
    opusModel := "anthropic/claude-3-opus"
    haikuModel := "anthropic/claude-3.5-haiku" }

/-! ### Remaining concrete inputs -/

/-- A schema whose string-uri root hides a second string-uri node inside
its `properties` key: the cleaner returns the destructured rest without
recursing into it. -/
def nestedUriSchema : JVal :=
  .obj [("type", .str "string"), ("format", .str "uri"),
        ("properties", .obj [("x", .obj [("type", .str "string"), ("format", .str "uri")])])]

/-- Scenario S4 of the specification: an object schema with a uri-string
property `u`, an integer property `n` and a `required` list. -/
def s4Schema : JVal :=
  .obj [("type", .str "object"),
        ("properties", .obj [("u", .obj [("type", .str "string"), ("format", .str "uri")]),
                             ("n", .obj [("type", .str "integer")])]),
        ("required", .arr [.str "u"])]

/-- A minimal request snapshot for concrete store runs. -/
def exampleReq : ReqSnapshot :=
  { method := "POST", url := "/v1/messages", headers := [], body := none }

/-- Block-level events of the Anthropic protocol. -/
def isBlockEvent : AEvent → Bool
  | .content_block_start_text _ => true
  | .content_block_start_tool _ _ _ => true
  | .content_block_delta_text _ _ => true
  | .content_block_delta_thinking _ _ => true
  | .content_block_delta_json _ _ => true
  | .content_block_stop _ => true
  | _ => false

/-- The first component of a cleaned entry is its original key. -/
theorem cleanEntry_fst (k : String) (v : JVal) : (cleanEntry k v).1 = k := by
  unfold cleanEntry
  split
  · rfl
  · split
    · rfl
    · split <;> rfl

/-- `removeUriFormat` never fabricates a string value. -/
theorem str_of_removeUriFormat {v : JVal} {s : String}
    (h : removeUriFormat v = .str s) : v = .str s := by
  cases v with
  | str s' => simpa [removeUriFormat] using h
  | null => simp [removeUriFormat] at h
  | bool b => simp [removeUriFormat] at h
  | num n => simp [removeUriFormat] at h
  | arr xs => simp [removeUriFormat] at h
  | obj kvs =>
    unfold removeUriFormat at h
    split at h <;> simp at h

/-- Property lookup commutes with `cleanEntries`. -/
theorem getProp_cleanEntries (kvs : List (String × JVal)) (k : String) :
    getProp (cleanEntries kvs) k = (getProp kvs k).map (fun v => (cleanEntry k v).2) := by
  induction kvs with
  | nil => simp [cleanEntries, getProp]
  | cons e rest ih =>
    obtain ⟨k', v'⟩ := e
    by_cases hk : k' = k
    · subst hk
      simp [cleanEntries, getProp, List.find?, cleanEntry_fst]
    · simp only [cleanEntries, getProp, List.find?] at *
      have h1 : ((cleanEntry k' v').1 == k) = false := by
        simp [cleanEntry_fst, hk]
      have h2 : (k' == k) = false := by simp [hk]
      simp [h1, h2] at *
      exact ih

/-- `cleanEntries` preserves non-uri-ness of an object node. -/
theorem isUriStringNode_cleanEntries {kvs : List (String × JVal)}
    (h : isUriStringNode kvs = false) : isUriStringNode (cleanEntries kvs) = false := by
  unfold isUriStringNode at *
  rw [getProp_cleanEntries, getProp_cleanEntries]
  cases ht : getProp kvs "type" with
  | none => simp
  | some vt =>
    cases hf : getProp kvs "format" with
    | none => simp
    | some vf =>
      rw [ht, hf] at h
      simp only [Option.map_some']
      have htc : (cleanEntry "type" vt).2 = removeUriFormat vt := by
        unfold cleanEntry
        split
        · simp_all
        · split
          · simp_all
          · split
            · simp_all
            · rfl
      have hfc : (cleanEntry "format" vf).2 = removeUriFormat vf := by
        unfold cleanEntry
        split
        · simp_all
        · split
          · simp_all
          · split
            · simp_all
            · rfl
      rw [htc, hfc]
      cases hvt : removeUriFormat vt with
      | str st =>
        cases hvf : removeUriFormat vf with
        | str sf =>
          have := str_of_removeUriFormat hvt
          have := str_of_removeUriFormat hvf
          subst_vars
          simpa using h
        | _ => simp
      | _ => simp

/-- Filtering away a key makes its lookup `undefined`. -/
theorem getProp_filter_ne (kvs : List (String × JVal)) (k : String) :
    getProp (kvs.filter (fun e => e.1 ≠ k)) k = none := by
  induction kvs with
  | nil => simp [getProp]
  | cons e rest ih =>
    by_cases hk : e.1 = k
    · rw [show (List.filter (fun e => decide (e.1 ≠ k)) (e :: rest)) =
          List.filter (fun e => decide (e.1 ≠ k)) rest by simp [List.filter, hk]]
      exact ih
    · simp only [List.filter, getProp]
      rw [show decide (e.1 ≠ k) = true by simp [hk]]
      simp only [List.find?]
      rw [show (e.1 == k) = false by simp [hk]]
      exact ih

/-- An object without a `format` key is not a string-uri node. -/
theorem isUriStringNode_of_no_format {kvs : List (String × JVal)}
    (h : getProp kvs "format" = none) : isUriStringNode kvs = false := by
  unfold isUriStringNode
  rw [h]
  cases getProp kvs "type" with
  | none => rfl
  | some v => cases v <;> rfl

/-- Primitive values are untouched by the cleaner. -/
theorem removeUriFormat_prim {v : JVal} (h : isPrim v = true) :
    removeUriFormat v = v := by
  cases v <;> simp_all [isPrim, removeUriFormat]

theorem isCleanedJ_prim {v : JVal} (h : isPrim v = true) : isCleanedJ v = true := by
  cases v <;> simp_all [isPrim, isCleanedJ]

theorem typeofObject_prim {v : JVal} (h : isPrim v = true) :
    typeofObject v = false := by
  cases v <;> simp_all [isPrim, typeofObject]

/-- Values that are not `typeof object` are returned unchanged. -/
theorem removeUriFormat_of_not_typeofObject {v : JVal}
    (h : typeofObject v = false) : removeUriFormat v = v := by
  cases v <;> simp_all [typeofObject, removeUriFormat]

/-- Outside the `properties` branch, `cleanEntry` just cleans the value:
the `items`, `additionalProperties` and `anyOf`/`allOf`/`oneOf` branches
compute the same result as the generic recursion. -/
theorem cleanEntry_snd_eq {k : String} {v : JVal}
    (h : ¬(k = "properties" ∧ typeofObject v = true)) :
    cleanEntry k v = (k, removeUriFormat v) := by
  unfold cleanEntry
  rw [if_neg h]
  split
  · rfl
  · split
    · rename_i harr
      match v, harr.2 with
      | .arr xs, _ => simp [cleanArr, removeUriFormat]
    · rfl

/-- Entry lists of primitive values are in cleaner normal form, even after
filtering. -/
theorem isCleanedO_filter_of_primVals {kvs : List (String × JVal)}
    (h : primVals kvs = true) (p : String × JVal → Bool) :
    isCleanedO (kvs.filter p) = true := by
  induction kvs with
  | nil => simp [isCleanedO]
  | cons e rest ih =>
    obtain ⟨k, v⟩ := e
    simp only [primVals, Bool.and_eq_true] at h
    by_cases hp : p (k, v) = true
    · simp only [List.filter, hp, isCleanedO, Bool.and_eq_true]
      refine ⟨?_, ih h.2⟩
      unfold isCleanedEntry
      rw [if_neg]
      · exact isCleanedJ_prim h.1
      · rintro ⟨-, hobj⟩
        rw [typeofObject_prim h.1] at hobj
        exact Bool.false_ne_true hobj
    · simp only [List.filter]
      rw [Bool.not_eq_true] at hp
      rw [hp]
      exact ih h.2

/-- Master induction for the schema cleaner: cleaner normal forms are fixed
points, and tame schemas clean to normal forms. -/
theorem cleanMaster : ∀ n : Nat,
    (∀ v : JVal, sizeOf v ≤ n →
      (isCleanedJ v = true → removeUriFormat v = v) ∧
      (tameJ v = true → isCleanedJ (removeUriFormat v) = true)) ∧
    (∀ xs : List JVal, sizeOf xs ≤ n →
      (isCleanedL xs = true → cleanList xs = xs) ∧
      (tameL xs = true → isCleanedL (cleanList xs) = true)) ∧
    (∀ kvs : List (String × JVal), sizeOf kvs ≤ n →
      (isCleanedO kvs = true → cleanEntries kvs = kvs) ∧
      (tameO kvs = true → isCleanedO (cleanEntries kvs) = true)) ∧
    (∀ kvs : List (String × JVal), sizeOf kvs ≤ n →
      (isCleanedVals kvs = true → cleanValues kvs = kvs) ∧
      (tameVals kvs = true → isCleanedVals (cleanValues kvs) = true)) ∧
    (∀ (i : Nat) (xs : List JVal), sizeOf xs ≤ n →
      tameL xs = true → isCleanedVals (forInArr i xs) = true) := by
  intro n
  induction n using Nat.strong_induction_on with
  | _ n ih =>
  have IHv : ∀ v : JVal, sizeOf v < n →
      (isCleanedJ v = true → removeUriFormat v = v) ∧
      (tameJ v = true → isCleanedJ (removeUriFormat v) = true) :=
    fun v hv => (ih (sizeOf v) hv).1 v le_rfl
  have IHl : ∀ xs : List JVal, sizeOf xs < n →
      (isCleanedL xs = true → cleanList xs = xs) ∧
      (tameL xs = true → isCleanedL (cleanList xs) = true) :=
    fun xs hxs => (ih (sizeOf xs) hxs).2.1 xs le_rfl
  have IHe : ∀ kvs : List (String × JVal), sizeOf kvs < n →
      (isCleanedO kvs = true → cleanEntries kvs = kvs) ∧
      (tameO kvs = true → isCleanedO (cleanEntries kvs) = true) :=
    fun kvs h => (ih (sizeOf kvs) h).2.2.1 kvs le_rfl
  have IHvals : ∀ kvs : List (String × JVal), sizeOf kvs < n →
      (isCleanedVals kvs = true → cleanValues kvs = kvs) ∧
      (tameVals kvs = true → isCleanedVals (cleanValues kvs) = true) :=
    fun kvs h => (ih (sizeOf kvs) h).2.2.2.1 kvs le_rfl
  have IHfa : ∀ (i : Nat) (xs : List JVal), sizeOf xs < n →
      tameL xs = true → isCleanedVals (forInArr i xs) = true :=
    fun i xs h => (ih (sizeOf xs) h).2.2.2.2 i xs le_rfl
  refine ⟨?_, ?_, ?_, ?_, ?_⟩
  · -- values
    intro v hv
    match v with
    | .null => exact ⟨fun _ => by simp [removeUriFormat], fun _ => by simp [removeUriFormat, isCleanedJ]⟩
    | .bool b => exact ⟨fun _ => by simp [removeUriFormat], fun _ => by simp [removeUriFormat, isCleanedJ]⟩
    | .num m => exact ⟨fun _ => by simp [removeUriFormat], fun _ => by simp [removeUriFormat, isCleanedJ]⟩
    | .str s => exact ⟨fun _ => by simp [removeUriFormat], fun _ => by simp [removeUriFormat, isCleanedJ]⟩
    | .arr xs =>
      have hxs : sizeOf xs < n := by simp at hv; omega
      constructor
      · intro hc
        simp only [isCleanedJ] at hc
        simp only [removeUriFormat]
        rw [(IHl xs hxs).1 hc]
      · intro htm
        simp only [tameJ] at htm
        simp only [removeUriFormat, isCleanedJ]
        exact (IHl xs hxs).2 htm
    | .obj kvs =>
      have hkvs : sizeOf kvs < n := by simp at hv; omega
      constructor
      · intro hc
        simp only [isCleanedJ, Bool.and_eq_true, Bool.not_eq_true'] at hc
        simp only [removeUriFormat]
        rw [if_neg (by simp [hc.1]), (IHe kvs hkvs).1 hc.2]
      · intro htm
        simp only [tameJ] at htm
        by_cases huri : isUriStringNode kvs = true
        · rw [if_pos huri] at htm
          simp only [removeUriFormat]
          rw [if_pos huri]
          simp only [isCleanedJ, Bool.and_eq_true, Bool.not_eq_true']
          refine ⟨?_, isCleanedO_filter_of_primVals htm _⟩
          exact isUriStringNode_of_no_format (getProp_filter_ne kvs "format")
        · rw [if_neg huri] at htm
          simp only [removeUriFormat]
          rw [if_neg huri]
          simp only [isCleanedJ, Bool.and_eq_true, Bool.not_eq_true']
          refine ⟨?_, (IHe kvs hkvs).2 htm⟩
          exact isUriStringNode_cleanEntries (Bool.not_eq_true _ ▸ huri)
  · -- lists
    intro xs hxs
    match xs with
    | [] => exact ⟨fun _ => by simp [cleanList], fun _ => by simp [cleanList, isCleanedL]⟩
    | x :: rest =>
      have hx : sizeOf x < n := by simp at hxs; omega
      have hrest : sizeOf rest < n := by simp at hxs; omega
      constructor
      · intro hc
        simp only [isCleanedL, Bool.and_eq_true] at hc
        simp only [cleanList]
        rw [(IHv x hx).1 hc.1, (IHl rest hrest).1 hc.2]
      · intro htm
        simp only [tameL, Bool.and_eq_true] at htm
        simp only [cleanList, isCleanedL, Bool.and_eq_true]
        exact ⟨(IHv x hx).2 htm.1, (IHl rest hrest).2 htm.2⟩
  · -- object entry lists (the rebuild loop)
    intro kvs hkvs
    match kvs with
    | [] => exact ⟨fun _ => by simp [cleanEntries], fun _ => by simp [cleanEntries, isCleanedO]⟩
    | (k, v) :: rest =>
      have hv : sizeOf v < n := by simp at hkvs; omega
      have hrest : sizeOf rest < n := by simp at hkvs; omega
      by_cases h1 : k = "properties" ∧ typeofObject v = true
      · -- the `properties` branch of the rebuild loop
        constructor
        · intro hc
          simp only [isCleanedO, Bool.and_eq_true] at hc
          obtain ⟨hce, hco⟩ := hc
          unfold isCleanedEntry at hce
          rw [if_pos h1] at hce
          match v, h1.2 with
          | .obj kvs', _ =>
            have hkvs' : sizeOf kvs' < n := by simp at hv; omega
            simp only [cleanEntries, cleanEntry]
            rw [if_pos (by exact ⟨h1.1, by simp [typeofObject]⟩)]
            simp only [forInClean]
            rw [(IHvals kvs' hkvs').1 hce, (IHe rest hrest).1 hco]
          | .null, _ => simp at hce
          | .arr xs, _ => simp at hce
        · intro htm
          simp only [tameO, Bool.and_eq_true] at htm
          obtain ⟨hte, hto⟩ := htm
          unfold tameEntry at hte
          rw [if_pos h1] at hte
          simp only [cleanEntries, cleanEntry]
          rw [if_pos h1]
          simp only [isCleanedO, Bool.and_eq_true]
          refine ⟨?_, (IHe rest hrest).2 hto⟩
          unfold isCleanedEntry
          match v, h1.2 with
          | .null, _ =>
            rw [if_pos ⟨h1.1, by simp [forInClean, typeofObject]⟩]
            simp [forInClean, isCleanedVals]
          | .arr xs, _ =>
            have hxs : sizeOf xs < n := by simp at hv; omega
            rw [if_pos ⟨h1.1, by simp [forInClean, typeofObject]⟩]
            simp only [forInClean]
            exact IHfa 0 xs hxs hte
          | .obj kvs', _ =>
            have hkvs' : sizeOf kvs' < n := by simp at hv; omega
            rw [if_pos ⟨h1.1, by simp [forInClean, typeofObject]⟩]
            simp only [forInClean]
            exact (IHvals kvs' hkvs').2 hte
      · -- the remaining branches all clean the value in a checked position
        have hce_eq : isCleanedEntry k v = isCleanedJ v := by
          unfold isCleanedEntry
          rw [if_neg h1]
        have hte_eq : tameEntry k v = tameJ v := by
          unfold tameEntry
          rw [if_neg h1]
        have hentry : cleanEntry k v = (k, removeUriFormat v) :=
          cleanEntry_snd_eq h1
        have hout : isCleanedEntry k (removeUriFormat v) = isCleanedJ (removeUriFormat v) := by
          unfold isCleanedEntry
          rw [if_neg]
          rintro ⟨hk, hto⟩
          apply h1
          refine ⟨hk, ?_⟩
          by_cases htv : typeofObject v = true
          · exact htv
          · rw [removeUriFormat_of_not_typeofObject (Bool.not_eq_true _ ▸ htv)] at hto
            rw [hto] at htv
            exact absurd rfl htv
        constructor
        · intro hc
          simp only [isCleanedO, Bool.and_eq_true] at hc
          simp only [cleanEntries, hentry]
          rw [(IHv v hv).1 (hce_eq ▸ hc.1), (IHe rest hrest).1 hc.2]
        · intro htm
          simp only [tameO, Bool.and_eq_true] at htm
          simp only [cleanEntries, hentry, isCleanedO, Bool.and_eq_true]
          refine ⟨?_, (IHe rest hrest).2 htm.2⟩
          rw [hout]
          exact (IHv v hv).2 (hte_eq ▸ htm.1)
  · -- value lists of an object (the `properties` for..in)
    intro kvs hkvs
    match kvs with
    | [] => exact ⟨fun _ => by simp [cleanValues], fun _ => by simp [cleanValues, isCleanedVals]⟩
    | (k, v) :: rest =>
      have hv : sizeOf v < n := by simp at hkvs; omega
      have hrest : sizeOf rest < n := by simp at hkvs; omega
      constructor
      · intro hc
        simp only [isCleanedVals, Bool.and_eq_true] at hc
        simp only [cleanValues]
        rw [(IHv v hv).1 hc.1, (IHvals rest hrest).1 hc.2]
      · intro htm
        simp only [tameVals, Bool.and_eq_true] at htm
        simp only [cleanValues, isCleanedVals, Bool.and_eq_true]
        exact ⟨(IHv v hv).2 htm.1, (IHvals rest hrest).2 htm.2⟩
  · -- `for..in` over an array value of `properties`
    intro i xs hxs htm
    match xs, htm with
    | [], _ => simp [forInArr, isCleanedVals]
    | x :: rest, htm =>
      have hx : sizeOf x < n := by simp at hxs; omega
      have hrest : sizeOf rest < n := by simp at hxs; omega
      simp only [tameL, Bool.and_eq_true] at htm
      simp only [forInArr, isCleanedVals, Bool.and_eq_true]
      exact ⟨(IHv x hx).2 htm.1, IHfa (i + 1) rest hrest htm.2⟩


/-! ## Claim theorems -/

/-- Helper: the mutual list clause of `maskSensitiveData` is `List.map`. -/
theorem maskListSD_eq_map : ∀ xs : List JVal, maskListSD xs = xs.map maskSensitiveData
  | [] => by simp [maskListSD]
  | x :: xs => by
    simp only [maskListSD, List.map]
    rw [maskListSD_eq_map xs]

/-- C7: header masking.  A string longer than 20 characters masks to its
first 10 characters, `"..."`, and its last 4 characters; a string of length
in (10, 20] masks to its first 6 characters and `"..."`; shorter strings
are unchanged; arrays are masked element-wise; non-strings pass through
unchanged. -/
theorem C7_masking :
    (∀ s : String, maskSensitiveData (.str s) =
      .str (if s.length > 20 then s.take 10 ++ "..." ++ s.takeRight 4
            else if s.length > 10 then s.take 6 ++ "..."
            else s)) ∧
    (∀ xs : List JVal, maskSensitiveData (.arr xs) = .arr (xs.map maskSensitiveData)) ∧
    maskSensitiveData .null = .null ∧
    (∀ b, maskSensitiveData (.bool b) = .bool b) ∧
    (∀ n, maskSensitiveData (.num n) = .num n) ∧
    (∀ kvs, maskSensitiveData (.obj kvs) = .obj kvs) := by
  refine ⟨?_, ?_, ?_, ?_, ?_, ?_⟩
  · intro s
    by_cases h : s = ""
    · subst h
      simp [maskSensitiveData]
    · simp only [maskSensitiveData, if_neg h]
      split_ifs <;> rfl
  · intro xs
    simp only [maskSensitiveData]
    rw [maskListSD_eq_map]
  · simp [maskSensitiveData]
  · intro b; simp [maskSensitiveData]
  · intro n; simp [maskSensitiveData]
  · intro kvs; simp [maskSensitiveData]

/-- C10: every store mutator taking an id (`endRequest`, `addStreamChunk`,
`setMergedContent`, `setError`) is a no-op when the id is not in the record
map: the state (records and statistics) is unchanged and no event is
emitted. -/
theorem C10_missing_id_noop (sz : JVal → Nat) (st : StoreState) (id : String)
    (now : Nat) (resp : RespSnapshot) (chunk : JVal) (merged : JVal)
    (message stack : String) (h : mapGet st.requests id = none) :
    endRequest sz st now id resp = (st, []) ∧
    addStreamChunk st now id chunk = (st, []) ∧
    setMergedContent sz st id merged = (st, []) ∧
    setError st id message stack = (st, []) := by
  refine ⟨?_, ?_, ?_, ?_⟩
  · unfold endRequest
    rw [h]
  · unfold addStreamChunk
    rw [h]
  · unfold setMergedContent
    rw [h]
  · unfold setError
    rw [h]

theorem C10_missing_id_noop_witness :
    mapGet (emptyStore 5).requests "x" = none ∧
    endRequest (fun _ => 0) (emptyStore 5) 7 "x" { status := 200, headers := none, body := none } =
      (emptyStore 5, []) := by
  have h : mapGet (emptyStore 5).requests "x" = none := rfl
  exact ⟨h, (C10_missing_id_noop (fun _ => 0) (emptyStore 5) "x" 7
    { status := 200, headers := none, body := none } .null .null "m" "s" h).1⟩

/-- C4: scenario S1 — the foreign stream `content "Hi"`, `content " world"
with usage.completion_tokens = 2`, `finish_reason "stop"`, `[DONE]`
translates to exactly `message_start, ping, content_block_start(0, text),
content_block_delta(0, "Hi"), content_block_delta(0, " world"),
content_block_stop(0), message_delta(stop_reason = "end_turn",
output_tokens = 2), message_stop`, in order. -/
theorem C4_scenario_S1 :
    runStream s1Frames =
      [ .message_start, .ping, .content_block_start_text 0,
        .content_block_delta_text 0 "Hi", .content_block_delta_text 0 " world",
        .content_block_stop 0, .message_delta "end_turn" (some 2), .message_stop ] := by
  decide

/-- C2 (code bug): on the mixed stream of scenario S3 — a text block opened
at index 0 and a tool block opened at index 1 — the `[DONE]` terminator
emits `content_block_stop` only for the tool index 1; the text block at
index 0 is never closed, contrary to the prescribed behaviour. -/
theorem C2_code_bug :
    blockStartsOf (runStream mixedFrames) = [0, 1] ∧
    blockStopsOf (runStream mixedFrames) = [1] := by
  decide

/-- C1 counterexample: a stream with no tool calls whose last
`finish_reason` is `"length"` still yields `stop_reason = "end_turn"`, not
`"max_tokens"`: the streaming terminator never consults `finish_reason`. -/
theorem C1_counterexample :
    stopReasonsOf (runStream lengthFrames) = ["end_turn"] ∧
    ("end_turn" : String) ≠ "max_tokens" := by
  decide

/-- C3 counterexample: a well-formed data frame carrying only `usage` (no
content, no tool calls, no reasoning) already triggers the preamble:
`sendSuccessMessage` runs on every parsed non-error frame. -/
theorem C3_counterexample :
    runStream usageOnlyFrames = [.message_start, .ping] := by
  decide

/-- C5 counterexample: the cleaner is not a fixpoint on the schema whose
string-uri root hides a second string-uri node under `properties` — the
first pass returns the destructured rest without recursing into it, the
second pass cleans the nested node. -/
theorem C5_counterexample :
    removeUriFormat (removeUriFormat nestedUriSchema) ≠ removeUriFormat nestedUriSchema := by
  simp [nestedUriSchema, removeUriFormat, isUriStringNode, getProp, cleanEntries, cleanEntry,
        forInClean, cleanValues, typeofObject]

/-- C5 amended: `cleanSchema` is idempotent on every schema whose
string-uri nodes carry only primitive values under their other keys, and a
schema already in cleaner normal form (no string-uri node in a checked
position) is returned unchanged — on such schemas the only alteration ever
made is the removal of `format` keys from string-uri nodes. -/
theorem C5_amended :
    (∀ S : JVal, tameJ S = true →
      removeUriFormat (removeUriFormat S) = removeUriFormat S) ∧
    (∀ S : JVal, isCleanedJ S = true → removeUriFormat S = S) := by
  have hfix : ∀ S : JVal, isCleanedJ S = true → removeUriFormat S = S :=
    fun S h => ((cleanMaster (sizeOf S)).1 S le_rfl).1 h
  have htame : ∀ S : JVal, tameJ S = true → isCleanedJ (removeUriFormat S) = true :=
    fun S h => ((cleanMaster (sizeOf S)).1 S le_rfl).2 h
  exact ⟨fun S h => hfix _ (htame S h), hfix⟩

theorem C5_amended_witness :
    tameJ s4Schema = true ∧
    removeUriFormat (removeUriFormat s4Schema) = removeUriFormat s4Schema := by
  have h : tameJ s4Schema = true := by
    simp [s4Schema, tameJ, tameO, tameEntry, tameVals, primVals, isPrim, tameL,
          isUriStringNode, getProp, typeofObject]
  exact ⟨h, C5_amended.1 s4Schema h⟩

/-- C8 counterexample: a payload whose `system` field is the single string
`"Be helpful"` produces no system message at all — the source only handles
an array-valued `system` (`Array.isArray` guard), so the claimed
`{role:"system", content:"Be helpful"}` message is missing. -/
theorem C8_counterexample :
    (convertRequestInline exampleConfig stringSystemPayload).messages = [] ∧
    stringSystemPayload.system = some (.str "Be helpful") := by
  constructor
  · rfl
  · rfl

/-- C8 amended: a string-valued `system` field is ignored (it contributes
no system message); an array-valued `system` contributes one system message
per block whose `text || content` normalizes to a non-empty string, pushed
in front of the converted conversation messages. -/
theorem C8_amended (cfg : ConvConfig) (p : NativePayload) (s : String)
    (bs : List SysBlock) :
    (convertRequestInline cfg { p with system := some (.str s) }).messages =
      convertMessages p.messages ∧
    (convertRequestInline cfg { p with system := some (.arr bs) }).messages =
      bs.filterMap (fun b =>
        match normalizeContent (sysPick b) with
        | some t =>
          if t = "" then none
          else some { role := "system", content := some t, tool_calls := [],
                      tool_call_id := none }
        | none => none) ++ convertMessages p.messages := by
  constructor
  · rfl
  · rfl

/-- C9 counterexample: a payload carrying `top_p = 9/10` and
`stop_sequences = ["STOP"]` converts to a foreign request with *no* `top_p`
and *no* `stop` — neither parameter is carried over. -/
theorem C9_counterexample :
    (convertRequestInline exampleConfig scalarPayload).top_p = none ∧
    (convertRequestInline exampleConfig scalarPayload).stop = none ∧
    scalarPayload.top_p = some (9 / 10) ∧
    scalarPayload.stop_sequences = some ["STOP"] := by
  exact ⟨rfl, rfl, rfl, rfl⟩

/-- C9 amended: the conversion copies `max_tokens`, defaults `temperature`
to 1 when missing, and sets `stream` to whether the input `stream` equals
`true`; `top_p` and `stop_sequences` are dropped — the foreign request
never contains `top_p` or `stop`. -/
theorem C9_amended (cfg : ConvConfig) (p : NativePayload) :
    (convertRequestInline cfg p).max_tokens = p.max_tokens ∧
    (convertRequestInline cfg p).temperature = p.temperature.getD 1 ∧
    (convertRequestInline cfg p).stream = decide (p.stream = some true) ∧
    (convertRequestInline cfg p).top_p = none ∧
    (convertRequestInline cfg p).stop = none := by
  exact ⟨rfl, rfl, rfl, rfl, rfl⟩



/-! ## Store capacity (C6) -/

theorem mapDelete_length_le (m : List (String × RRecord)) (id : String) :
    (mapDelete m id).length ≤ m.length :=
  List.length_filter_le _ _

theorem mapDelete_length_lt {m : List (String × RRecord)} {e : String × RRecord}
    (h : e ∈ m) : (mapDelete m e.1).length < m.length := by
  unfold mapDelete
  rw [List.length_filter_lt_length_iff_exists]
  exact ⟨e, h, by simp⟩

theorem foldl_mapDelete_le (l : List (String × RRecord)) (m : List (String × RRecord)) :
    (l.foldl (fun m e => mapDelete m e.1) m).length ≤ m.length := by
  induction l generalizing m with
  | nil => simp
  | cons e rest ih =>
    exact le_trans (ih _) (mapDelete_length_le _ _)

theorem mapSet_length_le (m : List (String × RRecord)) (id : String) (r : RRecord) :
    (mapSet m id r).length ≤ m.length + 1 := by
  unfold mapSet
  split
  · simp
  · simp

theorem mapSet_length_of_get_some {m : List (String × RRecord)} {id : String}
    {r : RRecord} (h : mapGet m id = some r) (r' : RRecord) :
    (mapSet m id r').length = m.length := by
  unfold mapSet
  rw [if_pos]
  · exact List.length_map _ _
  · unfold mapGet at h
    cases hf : m.find? (fun e => e.1 == id) with
    | none => rw [hf] at h; simp at h
    | some e => simp [hf]

/-- Eviction strictly shrinks a store that is at (or beyond) a positive
capacity: the first entry of the sorted snapshot is always deleted. -/
theorem evict_length_lt {st : StoreState} (h1 : 1 ≤ st.maxSize)
    (h2 : st.maxSize ≤ st.requests.length) :
    (evictOldestRequests st).length < st.requests.length := by
  simp only [evictOldestRequests]
  have hperm := List.mergeSort_perm st.requests (fun a b => evictLE a.2 b.2)
  have hlen := hperm.length_eq
  have hpos : 0 < (st.requests.mergeSort (fun a b => evictLE a.2 b.2)).length := by omega
  obtain ⟨e, es, he⟩ : ∃ e es, st.requests.mergeSort (fun a b => evictLE a.2 b.2) = e :: es := by
    cases hs : st.requests.mergeSort (fun a b => evictLE a.2 b.2) with
    | nil => rw [hs] at hpos; simp at hpos
    | cons e es => exact ⟨e, es, rfl⟩
  obtain ⟨rc, hrc⟩ : ∃ rc, max 1 (st.maxSize / 10) = rc + 1 :=
    ⟨max 1 (st.maxSize / 10) - 1, by omega⟩
  rw [he, hrc]
  simp only [List.take_succ_cons, List.foldl_cons]
  have hmem : e ∈ st.requests := hperm.mem_iff.mp (he ▸ List.mem_cons_self _ _)
  have hfirst : (mapDelete st.requests e.1).length < st.requests.length :=
    mapDelete_length_lt hmem
  have hrest := foldl_mapDelete_le (es.take rc) (mapDelete st.requests e.1)
  have hm1 : ((es.take rc).foldl (fun m e => mapDelete m e.1)
      (mapDelete st.requests e.1)).length < st.requests.length :=
    lt_of_le_of_lt hrest hfirst
  split
  · split
    · exact lt_of_le_of_lt (mapDelete_length_le _ _) hm1
    · exact hm1
  · exact hm1

/-- One store operation preserves the capacity bound. -/
theorem applyOp_capacity (sz : JVal → Nat) (st : StoreState) (op : StoreOp)
    (h1 : 1 ≤ st.maxSize) (h : st.requests.length ≤ st.maxSize) :
    (applyOp sz st op).1.requests.length ≤ st.maxSize ∧
    (applyOp sz st op).1.maxSize = st.maxSize := by
  cases op with
  | start id now req =>
    simp only [applyOp, startRequest]
    refine ⟨?_, by trivial⟩
    by_cases hc : st.requests.length ≥ st.maxSize
    · rw [if_pos hc]
      refine le_trans (mapSet_length_le _ _ _) ?_
      have hev := evict_length_lt h1 hc
      omega
    · rw [if_neg hc]
      refine le_trans (mapSet_length_le _ _ _) ?_
      omega
  | endReq id now resp =>
    simp only [applyOp, endRequest]
    cases hk : mapGet st.requests id with
    | none => exact ⟨h, rfl⟩
    | some r =>
      refine ⟨?_, rfl⟩
      rw [mapSet_length_of_get_some hk]
      exact h
  | addChunk id now chunk =>
    simp only [applyOp, addStreamChunk]
    cases hk : mapGet st.requests id with
    | none => exact ⟨h, rfl⟩
    | some r =>
      refine ⟨?_, rfl⟩
      rw [mapSet_length_of_get_some hk]
      exact h
  | setMerged id merged =>
    simp only [applyOp, setMergedContent]
    cases hk : mapGet st.requests id with
    | none => exact ⟨h, rfl⟩
    | some r =>
      refine ⟨?_, rfl⟩
      rw [mapSet_length_of_get_some hk]
      exact h
  | setErr id message stack =>
    simp only [applyOp, setError]
    cases hk : mapGet st.requests id with
    | none => exact ⟨h, rfl⟩
    | some r =>
      refine ⟨?_, rfl⟩
      rw [mapSet_length_of_get_some hk]
      exact h

/-- C6: starting from an empty store of capacity N ≥ 1, after any finite
sequence of `startRequest`, `endRequest`, `addStreamChunk`,
`setMergedContent` and `setError` operations the record map holds at most
N records — eviction before insertion removes at least one record whenever
the store is at capacity. -/
theorem C6_capacity (sz : JVal → Nat) (ops : List StoreOp) (N : Nat) (hN : 1 ≤ N) :
    (runOps sz N ops).requests.length ≤ N := by
  suffices h' : ∀ st : StoreState, st.maxSize = N → st.requests.length ≤ N →
      (ops.foldl (fun st op => (applyOp sz st op).1) st).requests.length ≤ N by
    exact h' (emptyStore N) rfl (by simp [emptyStore])
  induction ops with
  | nil =>
    intro st _ h2
    simpa using h2
  | cons op rest ih =>
    intro st hmax h2
    simp only [List.foldl_cons]
    have step := applyOp_capacity sz st op (hmax ▸ hN) (hmax ▸ h2)
    exact ih _ (step.2.trans hmax) (hmax ▸ step.1)

theorem C6_capacity_witness :
    1 ≤ 1 ∧
    (runOps (fun _ => 0) 1
      [.start "a" 0 exampleReq, .start "b" 1 exampleReq,
       .endReq "b" 2 { status := 200, headers := none, body := none }]).requests.length ≤ 1 :=
  ⟨by decide,
   C6_capacity (fun _ => 0)
     [.start "a" 0 exampleReq, .start "b" 1 exampleReq,
      .endReq "b" 2 { status := 200, headers := none, body := none }] 1 (by decide)⟩



/-! ## Streaming translator: general lemmas for C1 and C3 -/

/-- A terminated stream processes nothing further. -/
theorem runFrames_terminated {s : TState} (h : s.terminated = true) :
    ∀ fs : List ORFrame, runFrames s fs = (s, []) := by
  intro fs
  induction fs with
  | nil => rfl
  | cons f fs ih =>
    simp only [runFrames, processFrame, h, if_pos]
    simpa using ih

/-- One tool-call loop iteration emits only `content_block_start` and
`input_json_delta` events. -/
theorem processToolCall_no_message_delta (s : TState) (tc : ToolCallDelta)
    (r : String) (u : Option Nat) :
    AEvent.message_delta r u ∉ (processToolCall s tc).2 := by
  intro hmem
  simp only [processToolCall] at hmem
  split at hmem <;> split at hmem <;> simp_all

theorem processToolCalls_no_message_delta (tcs : List ToolCallDelta) :
    ∀ (s : TState) (r : String) (u : Option Nat),
      AEvent.message_delta r u ∉ (processToolCalls s tcs).2 := by
  induction tcs with
  | nil => intro s r u hmem; simp [processToolCalls] at hmem
  | cons tc tcs ih =>
    intro s r u hmem
    simp only [processToolCalls, List.mem_append] at hmem
    rcases hmem with h | h
    · exact processToolCall_no_message_delta s tc r u h
    · exact ih _ r u h

set_option maxHeartbeats 1000000 in
/-- A data frame never emits `message_delta`. -/
theorem processChunk_no_message_delta (s : TState) (c : ChunkJson)
    (r : String) (u : Option Nat) :
    AEvent.message_delta r u ∉ (processChunk s c).2 := by
  intro hmem
  simp only [processChunk] at hmem
  repeat' first
    | (split at hmem)
    | (rcases List.mem_append.mp hmem with hmem | hmem)
    | (simp at hmem)
    | (exact processToolCalls_no_message_delta _ _ r u hmem)

/-- `message_delta` at `[DONE]` carries the tool-call override, never the
finish-reason mapping. -/
theorem message_delta_doneEvents {s : TState} {r : String} {u : Option Nat}
    (h : AEvent.message_delta r u ∈ doneEvents s) :
    r = (if s.encounteredToolCall then "tool_use" else "end_turn") := by
  simp only [doneEvents, List.mem_append] at h
  rcases h with h | h
  · split at h
    · simp at h
    · split at h <;> simp_all
  · simp at h
    exact h.1

/-- Every emitted `message_delta` carries
`encounteredToolCall ? "tool_use" : "end_turn"` of the final state. -/
theorem runFrames_message_delta :
    ∀ (fs : List ORFrame) (s : TState) (r : String) (u : Option Nat),
      AEvent.message_delta r u ∈ (runFrames s fs).2 →
      r = (if (runFrames s fs).1.encounteredToolCall then "tool_use" else "end_turn") := by
  intro fs
  induction fs with
  | nil => intro s r u h; simp [runFrames] at h
  | cons f fs ih =>
    intro s r u hmem
    simp only [runFrames, List.mem_append] at hmem ⊢
    rcases hmem with h1 | h2
    · by_cases hterm : s.terminated = true
      · simp [processFrame, hterm] at h1
      · rw [Bool.not_eq_true] at hterm
        cases f with
        | malformed => simp [processFrame, hterm] at h1
        | data c =>
          rw [show processFrame s (.data c) = processChunk s c by
                simp [processFrame, hterm]] at h1
          exact absurd h1 (processChunk_no_message_delta s c r u)
        | done =>
          have hpf : processFrame s .done = ({ s with terminated := true }, doneEvents s) := by
            simp [processFrame, hterm]
          simp only [hpf] at h1 ⊢
          rw [runFrames_terminated (s := { s with terminated := true }) rfl fs]
          simpa using message_delta_doneEvents h1
    · exact ih (processFrame s f).1 r u h2

/-- The translator never reads `finish_reason`. -/
theorem processChunk_eraseFinish (s : TState) (c : ChunkJson) :
    processChunk s { c with
      choices := c.choices.map (fun ch => { ch with finish_reason := none }) } =
    processChunk s c := by
  obtain ⟨err, us, chs⟩ := c
  cases chs <;> simp [processChunk]

theorem runFrames_eraseFinish (fs : List ORFrame) :
    ∀ s : TState, runFrames s (fs.map eraseFinish) = runFrames s fs := by
  induction fs with
  | nil => intro s; rfl
  | cons f fs ih =>
    intro s
    have hpf : processFrame s (eraseFinish f) = processFrame s f := by
      cases f with
      | malformed => rfl
      | done => rfl
      | data c =>
        simp only [eraseFinish, processFrame]
        rw [processChunk_eraseFinish]
    simp only [List.map_cons, runFrames, hpf, ih]

/-- C1 amended: at `[DONE]` the emitted `message_delta` carries
`stop_reason = "tool_use"` if any tool-call delta was observed and
`"end_turn"` otherwise; the foreign `finish_reason` is never consulted —
the emitted event sequence is invariant under erasing every
`finish_reason`. -/
theorem C1_amended :
    (∀ (fs : List ORFrame) (r : String) (u : Option Nat),
      AEvent.message_delta r u ∈ runStream fs →
      r = (if (finalState fs).encounteredToolCall then "tool_use" else "end_turn")) ∧
    (∀ fs : List ORFrame, runStream (fs.map eraseFinish) = runStream fs) := by
  constructor
  · intro fs r u h
    exact runFrames_message_delta fs initialTState r u h
  · intro fs
    simp only [runStream, runFrames_eraseFinish]

theorem C1_amended_witness :
    AEvent.message_delta "end_turn" (some 2) ∈ runStream lengthFrames ∧
    "end_turn" =
      (if (finalState lengthFrames).encounteredToolCall then "tool_use" else "end_turn") := by
  have h : AEvent.message_delta "end_turn" (some 2) ∈ runStream lengthFrames := by decide
  exact ⟨h, C1_amended.1 lengthFrames "end_turn" (some 2) h⟩

/-- Before the preamble is sent, a non-error data frame always opens with
`message_start` and `ping`. -/
theorem processChunk_preamble {s : TState} {c : ChunkJson}
    (hsucc : s.isSucceeded = false) (herr : c.error = none) :
    ∃ tail, (processChunk s c).2 = AEvent.message_start :: AEvent.ping :: tail := by
  simp only [processChunk, herr, hsucc]
  split
  · exact ⟨_, rfl⟩
  · split
    · exact ⟨_, rfl⟩
    · split
      · exact ⟨_, rfl⟩
      · split
        · exact ⟨_, rfl⟩
        · split
          · exact ⟨_, rfl⟩
          · split
            · exact ⟨_, rfl⟩
            · exact ⟨_, rfl⟩

/-- C3 amended: the preamble is emitted on the first well-formed non-error
data frame, whether or not it carries content, and it precedes any
block-level event of the output. -/
theorem C3_amended :
    (∀ fs : List ORFrame, (∃ e ∈ runStream fs, isBlockEvent e = true) →
      ∃ rest, runStream fs = AEvent.message_start :: AEvent.ping :: rest) ∧
    (∀ (c : ChunkJson) (fs : List ORFrame), c.error = none →
      ∃ rest, runStream (ORFrame.data c :: fs) =
        AEvent.message_start :: AEvent.ping :: rest) := by
  have hdata : ∀ (c : ChunkJson) (fs : List ORFrame), c.error = none →
      ∃ rest, runStream (ORFrame.data c :: fs) =
        AEvent.message_start :: AEvent.ping :: rest := by
    intro c fs herr
    have hpf : processFrame initialTState (.data c) = processChunk initialTState c := rfl
    obtain ⟨tail, htail⟩ := processChunk_preamble (s := initialTState) rfl herr
    refine ⟨tail ++ (runFrames (processChunk initialTState c).1 fs).2, ?_⟩
    simp only [runStream, runFrames, hpf, htail]
    rfl
  constructor
  · intro fs
    induction fs with
    | nil =>
      rintro ⟨e, he, -⟩
      simp [runStream, runFrames] at he
    | cons f fs ih =>
      rintro ⟨e, he, hblock⟩
      cases f with
      | malformed =>
        have hskip : runStream (ORFrame.malformed :: fs) = runStream fs := by
          simp [runStream, runFrames, processFrame, initialTState]
        rw [hskip] at he ⊢
        exact ih ⟨e, he, hblock⟩
      | done =>
        have hdone : runStream (ORFrame.done :: fs) =
            [AEvent.message_delta "end_turn" (some 2), AEvent.message_stop] := by
          have h1 : processFrame initialTState .done =
              ({ initialTState with terminated := true }, doneEvents initialTState) := rfl
          simp only [runStream, runFrames, h1, runFrames_terminated (s :=
            { initialTState with terminated := true }) rfl fs]
          decide
        rw [hdone] at he
        simp only [List.mem_cons, List.not_mem_nil, or_false] at he
        rcases he with h | h
        · rw [h] at hblock
          simp [isBlockEvent] at hblock
        · rw [h] at hblock
          simp [isBlockEvent] at hblock
      | data c =>
        cases herr : c.error with
        | some msg =>
          have habort : runStream (ORFrame.data c :: fs) = [] := by
            have h1 : processFrame initialTState (.data c) = processChunk initialTState c := rfl
            have h2 : processChunk initialTState c =
                ({ initialTState with terminated := true }, []) := by
              simp [processChunk, herr, initialTState]
            simp only [runStream, runFrames, h1, h2,
              runFrames_terminated (s := { initialTState with terminated := true }) rfl fs]
            rfl
          rw [habort] at he
          simp at he
        | none => exact hdata c fs herr
  · exact hdata

theorem C3_amended_witness :
    usageOnlyChunk.error = none ∧
    ∃ rest, runStream (ORFrame.data usageOnlyChunk :: []) =
      AEvent.message_start :: AEvent.ping :: rest := by
  have h : usageOnlyChunk.error = none := rfl
  exact ⟨h, C3_amended.2 usageOnlyChunk [] h⟩


end Proxy
